import Mathlib

set_option maxRecDepth 4000

/-!
Verification of the Cyber-Threat-Dashboard risk-scoring and severity
pipeline: a shallow embedding of the cleaning, scoring, clustering,
quantile-labelling and prediction code, together with theorems settling
the behavioural claims about it.  Machine reals are modelled by `Rat`,
missing values by `Option`, and raised exceptions by `none` results.
-/

/-- Association-list lookup by string key (models Python dict access). -/
def lookupStr {α : Type} (k : String) : List (String × α) → Option α
  | [] => none
  | (k', v) :: rest => if k = k' then some v else lookupStr k rest

/-- Effectful map over a list in the `Option` monad: the first failing
element aborts the whole computation (models a Python loop raising). -/
def mapO {α β : Type} (g : α → Option β) : List α → Option (List β)
  | [] => some []
  | x :: xs =>
    match g x, mapO g xs with
    | some y, some ys => some (y :: ys)
    | _, _ => none

/-- Index of the first occurrence of `s` (models Python `list.index`,
`none` when absent, which in Python raises `ValueError`). -/
def idxOf (s : String) : List String → Option Nat
  | [] => none
  | c :: cs => if s = c then some 0 else (idxOf s cs).map (· + 1)

/-- Drop-duplicates keeping the first occurrence, carrying the set of
already seen rows (models `DataFrame.drop_duplicates`). -/
def dedupAux {α : Type} [DecidableEq α] : List α → List α → List α
  | _, [] => []
  | seen, r :: rest =>
    if r ∈ seen then dedupAux seen rest else r :: dedupAux (r :: seen) rest

/-- `drop_duplicates`: keep the first occurrence of every row. -/
def dropDuplicates {α : Type} [DecidableEq α] (l : List α) : List α :=
  dedupAux [] l

/-- Insert into a sorted list of rationals. -/
def insertSorted (x : Rat) : List Rat → List Rat
  | [] => [x]
  | y :: ys => if x ≤ y then x :: y :: ys else y :: insertSorted x ys

/-- Insertion sort for rationals (ascending). -/
def sortRats : List Rat → List Rat
  | [] => []
  | x :: xs => insertSorted x (sortRats xs)

/-- The non-missing entries of a column (models dropping NaN). -/
def nonMissing (l : List (Option Rat)) : List Rat := l.filterMap id

/-- Median of a list of rationals, as pandas computes it: middle element
for odd length, mean of the two middle elements for even length, and
undefined (NaN) for the empty list. -/
def median (l : List Rat) : Option Rat :=
  let s := sortRats l
  let n := s.length
  if n = 0 then none
  else if n % 2 = 1 then s.get? (n / 2)
  else
    match s.get? (n / 2 - 1), s.get? (n / 2) with
    | some a, some b => some ((a + b) / 2)
    | _, _ => none

/-- `fillna`: replace a missing cell by the fill value when the fill
value itself is defined; an undefined (NaN) fill value leaves the cell
untouched. -/
def fillOpt (m : Option Rat) (x : Option Rat) : Option Rat :=
  match m with
  | none => x
  | some v => some (x.getD v)

/-- One raw row of `Global_Cybersecurity_Threats_2015-2024.csv`; every
cell may be missing. -/
structure RawRecord where
  country : Option String
  year : Option Rat
  attackType : Option String
  targetIndustry : Option String
  financialLoss : Option Rat
  affectedUsers : Option Rat
  attackSource : Option String
  vulnType : Option String
  defense : Option String
  resolutionHours : Option Rat
deriving DecidableEq, Repr

/-- `df["Financial Loss (in Million $)"].fillna(median)` on the current
snapshot of the table. -/
def fillFinancial (l : List RawRecord) : List RawRecord :=
  let m := median (nonMissing (l.map (fun r => r.financialLoss)))
  l.map (fun r => { r with financialLoss := fillOpt m r.financialLoss })

/-- `df["Number of Affected Users"].fillna(median)`. -/
def fillAffected (l : List RawRecord) : List RawRecord :=
  let m := median (nonMissing (l.map (fun r => r.affectedUsers)))
  l.map (fun r => { r with affectedUsers := fillOpt m r.affectedUsers })

/-- `df["Incident Resolution Time (in Hours)"].fillna(median)`. -/
def fillResolution (l : List RawRecord) : List RawRecord :=
  let m := median (nonMissing (l.map (fun r => r.resolutionHours)))
  l.map (fun r => { r with resolutionHours := fillOpt m r.resolutionHours })

/-- The loop filling every categorical column's missing cells with the
literal "Unknown". -/
def fillCats (l : List RawRecord) : List RawRecord :=
  l.map (fun r =>
    { r with
      attackType := some (r.attackType.getD "Unknown")
      targetIndustry := some (r.targetIndustry.getD "Unknown")
      attackSource := some (r.attackSource.getD "Unknown")
      vulnType := some (r.vulnType.getD "Unknown")
      defense := some (r.defense.getD "Unknown")
      country := some (r.country.getD "Unknown") })

/-- The Cleaner exactly as `preprocess_data` performs it: drop
duplicates, then fill each numeric column with its median (computed on
the table as it stands at that point), then fill the categoricals. -/
def cleanData (l : List RawRecord) : List RawRecord :=
  fillCats (fillResolution (fillAffected (fillFinancial (dropDuplicates l))))

/-- Modelled from the spec wording, for comparison with `cleanData`:
each numeric column's missing values are filled with that column's
median "computed over all non-missing values of the full dataset before
any filtering", i.e. before the duplicate rows are dropped. -/
def cleanSpecPre (l : List RawRecord) : List RawRecord :=
  let mF := median (nonMissing (l.map (fun r => r.financialLoss)))
  let mA := median (nonMissing (l.map (fun r => r.affectedUsers)))
  let mR := median (nonMissing (l.map (fun r => r.resolutionHours)))
  let d := dropDuplicates l
  fillCats (d.map (fun r =>
    { r with
      financialLoss := fillOpt mF r.financialLoss
      affectedUsers := fillOpt mA r.affectedUsers
      resolutionHours := fillOpt mR r.resolutionHours }))

/-- The Cleaner described declaratively: drop duplicates first, then
impute each numeric column with its median over the non-missing values
of the deduplicated snapshot, and each categorical with "Unknown". -/
def cleanSpecDedup (l : List RawRecord) : List RawRecord :=
  let d := dropDuplicates l
  let mF := median (nonMissing (d.map (fun r => r.financialLoss)))
  let mA := median (nonMissing (d.map (fun r => r.affectedUsers)))
  let mR := median (nonMissing (d.map (fun r => r.resolutionHours)))
  fillCats (d.map (fun r =>
    { r with
      financialLoss := fillOpt mF r.financialLoss
      affectedUsers := fillOpt mA r.affectedUsers
      resolutionHours := fillOpt mR r.resolutionHours }))

/-- A record none of whose imputed columns is missing (`Year` is never
imputed by the Cleaner, so it is not constrained here). -/
def Imputed (r : RawRecord) : Prop :=
  r.country.isSome ∧ r.attackType.isSome ∧ r.targetIndustry.isSome ∧
  r.financialLoss.isSome ∧ r.affectedUsers.isSome ∧ r.attackSource.isSome ∧
  r.vulnType.isSome ∧ r.defense.isSome ∧ r.resolutionHours.isSome

instance (r : RawRecord) : Decidable (Imputed r) := by
  unfold Imputed; infer_instance

/-- Does `pat` occur at the head of `s`? -/
def matchAt : List Char → List Char → Bool
  | [], _ => true
  | _ :: _, [] => false
  | p :: ps, c :: cs => p == c && matchAt ps cs

/-- Does `pat` occur anywhere in `s`?  (Case-sensitive, models Python
`pat in s` on strings.) -/
def containsCh (pat : List Char) : List Char → Bool
  | [] => matchAt pat []
  | c :: cs => matchAt pat (c :: cs) || containsCh pat cs

/-- Case-sensitive substring test on strings. -/
def hasSub (s pat : String) : Bool := containsCh pat.data s.data

/-- The proposition that `pat` is a contiguous substring of `s`. -/
def HasSubstr (s pat : String) : Prop :=
  ∃ l r, s.data = l ++ pat.data ++ r

/-- The hand-authored attack-severity lookup table of `preprocess_data`. -/
def severity_map : List (String × Rat) :=
  [("Ransomware", 1), ("Zero-day", 1), ("Malware", 0.6), ("DDoS", 0.6),
   ("Phishing", 0.4), ("Social Engineering", 0.4), ("Brute Force", 0.5),
   ("Data Breach", 0.8), ("SQL Injection", 0.7), ("Man-in-the-middle", 0.7)]

/-- `get_severity_factor`: table base (default 0.3 for unrecognized
attack types) plus a 0.2 boost when the raw vulnerability text contains
"Zero" or "Misconfig". -/
def get_severity_factor (attack vuln : String) : Rat :=
  let base := (lookupStr attack severity_map).getD 0.3
  let vboost : Rat := if hasSub vuln "Zero" || hasSub vuln "Misconfig" then 0.2 else 0
  base + vboost

/-- A cleaned row: no missing cells remain. -/
structure CleanRecord where
  country : String
  year : Rat
  attackType : String
  targetIndustry : String
  financialLoss : Rat
  affectedUsers : Rat
  attackSource : String
  vulnType : String
  defense : String
  resolutionHours : Rat
deriving DecidableEq, Repr

/-- `MinMaxScaler` on one cell: `(x - min) / (max - min)`, where sklearn
replaces a zero scale (constant column) by 1. -/
def minmaxNorm (mn mx x : Rat) : Rat :=
  let scale := mx - mn
  (x - mn) / (if scale = 0 then 1 else scale)

/-- Minimum of a column (0 on the empty table, which the pipeline never
normalizes). -/
def colMin : List Rat → Rat
  | [] => 0
  | x :: xs => xs.foldl min x

/-- Maximum of a column. -/
def colMax : List Rat → Rat
  | [] => 0
  | x :: xs => xs.foldl max x

/-- A scored row: the raw cells plus the derived columns added by
steps 3-5 of `preprocess_data`. -/
structure ScoredRecord where
  base : CleanRecord
  attack_severity_factor : Rat
  financialLoss_norm : Rat
  affectedUsers_norm : Rat
  resolutionHours_norm : Rat
  risk_score : Rat
deriving DecidableEq, Repr

/-- Steps 3-5 of `preprocess_data`: per-row severity factor, min-max
normalization of the three numeric columns over the whole table, and the
weighted hybrid risk score. -/
def scoreDataset (l : List CleanRecord) : List ScoredRecord :=
  let flMn := colMin (l.map (fun r => r.financialLoss))
  let flMx := colMax (l.map (fun r => r.financialLoss))
  let auMn := colMin (l.map (fun r => r.affectedUsers))
  let auMx := colMax (l.map (fun r => r.affectedUsers))
  let rtMn := colMin (l.map (fun r => r.resolutionHours))
  let rtMx := colMax (l.map (fun r => r.resolutionHours))
  l.map (fun r =>
    let asf := get_severity_factor r.attackType r.vulnType
    let fn := minmaxNorm flMn flMx r.financialLoss
    let an := minmaxNorm auMn auMx r.affectedUsers
    let rn := minmaxNorm rtMn rtMx r.resolutionHours
    { base := r
      attack_severity_factor := asf
      financialLoss_norm := fn
      affectedUsers_norm := an
      resolutionHours_norm := rn
      risk_score := 0.4 * fn + 0.3 * an + 0.2 * rn + 0.1 * asf })

/-- The 4-dimensional feature vector handed to KMeans. -/
structure Feat where
  risk : Rat
  fl : Rat
  au : Rat
  rt : Rat
deriving DecidableEq, Repr

/-- The KMeans feature vector of a scored row. -/
def featOf (sr : ScoredRecord) : Feat :=
  { risk := sr.risk_score
    fl := sr.financialLoss_norm
    au := sr.affectedUsers_norm
    rt := sr.resolutionHours_norm }

/-- `centers.mean(axis=1)`: a cluster center averaged across its 4
coordinates. -/
def featAvg (c : Feat) : Rat := (c.risk + c.fl + c.au + c.rt) / 4

/-- Squared Euclidean distance between two feature vectors. -/
def sqDist (p q : Feat) : Rat :=
  (p.risk - q.risk) * (p.risk - q.risk) + (p.fl - q.fl) * (p.fl - q.fl) +
  (p.au - q.au) * (p.au - q.au) + (p.rt - q.rt) * (p.rt - q.rt)

/-- Mean of a list of rationals (0 on the empty list). -/
def ratMean (l : List Rat) : Rat := l.sum / (l.length : Rat)

/-- The members of cluster `j` under assignment `asg`. -/
def clusterMembers (pts : List Feat) (asg : List (Fin 4)) (j : Fin 4) : List Feat :=
  ((pts.zip asg).filter (fun pr => pr.2 == j)).map (fun pr => pr.1)

/-- The center of cluster `j`: the componentwise mean of its members
(the KMeans invariant at convergence). -/
def clusterCenter (pts : List Feat) (asg : List (Fin 4)) (j : Fin 4) : Feat :=
  let ms := clusterMembers pts asg j
  { risk := ratMean (ms.map Feat.risk)
    fl := ratMean (ms.map Feat.fl)
    au := ratMean (ms.map Feat.au)
    rt := ratMean (ms.map Feat.rt) }

/-- The sort key used by step 7 of `preprocess_data`: the cluster center
averaged across its 4 coordinates. -/
def clusterKey (pts : List Feat) (asg : List (Fin 4)) (j : Fin 4) : Rat :=
  featAvg (clusterCenter pts asg j)

/-- A converged KMeans state: every one of the 4 clusters is nonempty
and every point sits in a cluster whose center is at least as close as
every other center. -/
def IsKMeansState (pts : List Feat) (asg : List (Fin 4)) : Prop :=
  pts.length = asg.length ∧ (∀ j : Fin 4, j ∈ asg) ∧
  ∀ pr ∈ pts.zip asg, ∀ j : Fin 4,
    sqDist pr.1 (clusterCenter pts asg pr.2) ≤ sqDist pr.1 (clusterCenter pts asg j)

instance (pts : List Feat) (asg : List (Fin 4)) : Decidable (IsKMeansState pts asg) := by
  unfold IsKMeansState; infer_instance

/-- Strict comparison of clusters by key, ties broken by the original
cluster index: the order `np.argsort` sorts by. -/
def clt (keys : Fin 4 → Rat) (i j : Fin 4) : Prop :=
  keys i < keys j ∨ (keys i = keys j ∧ i < j)

instance cltDecidable (keys : Fin 4 → Rat) (i j : Fin 4) : Decidable (clt keys i j) :=
  inferInstanceAs (Decidable (Or _ _))

/-- The ordinal tier assigned to cluster `j` by
`cluster_order = np.argsort(centers); severity_labels = ...`: the rank
of `j`'s key among the 4 cluster keys (0 = "Low", 3 = "Critical"). -/
def tierOf (keys : Fin 4 → Rat) (j : Fin 4) : Nat :=
  (Finset.univ.filter (fun i => clt keys i j)).card

/-- Step 7 of `preprocess_data`: the per-row ordinal severity tier. -/
def severityTiers (pts : List Feat) (asg : List (Fin 4)) : List Nat :=
  asg.map (fun j => tierOf (clusterKey pts asg) j)

/-- The name given to each ordinal tier. -/
def tierName (t : Nat) : String :=
  if t = 0 then "Low" else if t = 1 then "Medium" else if t = 2 then "High" else "Critical"

/-- Mean `risk_score` of the rows labelled with tier `t`. -/
def meanRiskOfTier (pts : List Feat) (asg : List (Fin 4)) (t : Nat) : Rat :=
  ratMean (((pts.zip (severityTiers pts asg)).filter (fun pr => pr.2 == t)).map
    (fun pr => pr.1.risk))

/-- Linear-interpolation quantile exactly as `Series.quantile` computes
it: on the sorted column, position `q * (n - 1)`, interpolated between
the two neighbouring order statistics; undefined on an empty column. -/
def quantile (l : List Rat) (q : Rat) : Option Rat :=
  let s := sortRats l
  let n := s.length
  if n = 0 then none
  else
    let pos : Rat := q * ((n : Rat) - 1)
    let i : Nat := pos.floor.toNat
    let frac : Rat := pos - (i : Rat)
    match s.get? i, s.get? (i + 1) with
    | some lo, some hi => some (lo + frac * (hi - lo))
    | some lo, none => some lo
    | none, _ => none

/-- One cell of `pd.cut(col, bins=[-1, q1, q2, inf], labels=[...])`
with right-closed intervals: values at or below the leftmost edge -1
fall outside every bin and get NaN (`none`). -/
def cutRow (q1 q2 x : Rat) : Option String :=
  if x ≤ -1 then none
  else if x ≤ q1 then some "Low"
  else if x ≤ q2 then some "Medium"
  else some "High"

/-- `add_severity_label` on the affected-users column: compute the 33rd
and 66th percentile and bin with `pd.cut`.  `pd.cut` raises when the bin
edges `[-1, q1, q2, inf]` are not strictly increasing and unique, which
the guard models by returning `none`. -/
def add_severity_label (users : List Rat) : Option (List (Option String)) :=
  match quantile users 0.33, quantile users 0.66 with
  | some q1, some q2 =>
    if -1 < q1 ∧ q1 < q2 then some (users.map (cutRow q1 q2)) else none
  | _, _ => none

/-- Ordinal rank of a supervised severity label (for stating that the
labelling is monotone). -/
def sevRank (ol : Option String) : Nat :=
  if ol = some "Low" then 0
  else if ol = some "Medium" then 1
  else if ol = some "High" then 2
  else 3

/-- A cell handed to the Predictor: a raw categorical string or a
number. -/
inductive Value where
  | str : String → Value
  | num : Rat → Value
deriving DecidableEq, Repr

/-- Python `value in classes` for a cell against a string vocabulary:
numbers are never members. -/
def valueMem (v : Value) (classes : List String) : Bool :=
  match v with
  | Value.str s => classes.contains s
  | Value.num _ => false

/-- Encoding of one field by `encode_input`: a field with a persisted
vocabulary is replaced by its index, an unseen value falling back to the
vocabulary's first entry; any other field passes through unchanged.
`none` models the `IndexError` on an empty vocabulary. -/
def encodeField (encoders : List (String × List String)) (key : String) (v : Value) :
    Option Value :=
  match lookupStr key encoders with
  | none => some v
  | some classes =>
    let w : Value :=
      if valueMem v classes then v
      else
        match classes with
        | [] => v
        | c :: _ => Value.str c
    match w with
    | Value.str s => (idxOf s classes).map (fun n => Value.num (n : Rat))
    | Value.num _ => none

/-- `encode_input`: encode every field of the input dict. -/
def encode_input (encoders : List (String × List String))
    (row : List (String × Value)) : Option (List (String × Value)) :=
  mapO (fun kv => (encodeField encoders kv.1 kv.2).map (fun w => (kv.1, w))) row

/-- `encoded_df[features]`: assemble the cells in the persisted feature
order; a missing column raises (`none`). -/
def selectFeatures (features : List String) (row : List (String × Value)) :
    Option (List Value) :=
  mapO (fun f => lookupStr f row) features

/-- The persisted classifier, abstractly: it maps a feature vector to
the index of one of the classes it was trained on (sklearn's `predict`
always returns a trained class). -/
structure Model where
  numClasses : Nat
  predictFun : List Value → Nat
  pred_lt : ∀ x, predictFun x < numClasses

/-- `predict_severity`: encode the input, order the features, run the
classifier and decode via the persisted Severity vocabulary.  `none`
models any raised exception. -/
def predict_severity (m : Model) (encoders : List (String × List String))
    (features : List String) (input : List (String × Value)) : Option String :=
  match encode_input encoders input with
  | none => none
  | some enc =>
    match selectFeatures features enc with
    | none => none
    | some vec =>
      match lookupStr "Severity" encoders with
      | none => none
      | some sev => sev.get? (m.predictFun vec)

/-- `predict_batch`: encode every row, order the features of every row,
predict the whole batch and decode every prediction. -/
def predict_batch (m : Model) (encoders : List (String × List String))
    (features : List String) (rows : List (List (String × Value))) :
    Option (List String) :=
  match mapO (encode_input encoders) rows with
  | none => none
  | some encRows =>
    match mapO (selectFeatures features) encRows with
    | none => none
    | some vecs =>
      match lookupStr "Severity" encoders with
      | none => none
      | some sev => mapO (fun p => sev.get? p) (vecs.map m.predictFun)

/-- The ordered feature list persisted by `model_training.py`. -/
def featuresEx : List String :=
  ["Country", "Year", "Attack Type", "Target Industry",
   "Financial Loss (in Million $)", "Number of Affected Users",
   "Attack Source", "Security Vulnerability Type",
   "Defense Mechanism Used", "Incident Resolution Time (in Hours)"]

/-- A concrete set of persisted vocabularies of the shape
`model_features.json` stores (each list sorted, as `LabelEncoder`
persists them). -/
def encodersEx : List (String × List String) :=
  [("Country", ["India", "USA"]),
   ("Attack Type", ["DDoS", "Phishing"]),
   ("Target Industry", ["Finance", "Retail"]),
   ("Attack Source", ["Insider", "Unknown"]),
   ("Security Vulnerability Type", ["Unpatched Software", "Weak Credentials"]),
   ("Defense Mechanism Used", ["Antivirus", "Firewall"]),
   ("Severity", ["High", "Low", "Medium"])]

/-- A concrete classifier over those artifacts: three classes, the
predicted class index depending on the encoded vector. -/
def modelEx : Model where
  numClasses := 3
  predictFun := fun v => v.length % 3
  pred_lt := fun v => Nat.mod_lt _ (by decide)

/-- The scenario record of the spec: the example input of
`predict_severity`'s docstring. -/
def indiaInput : List (String × Value) :=
  [("Country", Value.str "India"),
   ("Year", Value.num 2024),
   ("Attack Type", Value.str "Phishing"),
   ("Target Industry", Value.str "Finance"),
   ("Financial Loss (in Million $)", Value.num (25/2)),
   ("Number of Affected Users", Value.num 5200),
   ("Attack Source", Value.str "Unknown"),
   ("Security Vulnerability Type", Value.str "Weak Credentials"),
   ("Defense Mechanism Used", Value.str "Firewall"),
   ("Incident Resolution Time (in Hours)", Value.num 48)]

/-- The scenario record with a fabricated country name never seen at
training time. -/
def atlantisInput : List (String × Value) :=
  [("Country", Value.str "Atlantis"),
   ("Year", Value.num 2024),
   ("Attack Type", Value.str "Phishing"),
   ("Target Industry", Value.str "Finance"),
   ("Financial Loss (in Million $)", Value.num (25/2)),
   ("Number of Affected Users", Value.num 5200),
   ("Attack Source", Value.str "Unknown"),
   ("Security Vulnerability Type", Value.str "Weak Credentials"),
   ("Defense Mechanism Used", Value.str "Firewall"),
   ("Incident Resolution Time (in Hours)", Value.num 48)]

/-- Four cleaned records engineered so that the four KMeans feature
points are pairwise distinct and the singleton clustering is a converged
KMeans state. -/
def cexRecords : List CleanRecord :=
  [{ country := "A", year := 2020, attackType := "Ransomware",
     targetIndustry := "Tech", financialLoss := 0, affectedUsers := 0,
     attackSource := "X", vulnType := "Zero-day Exploit", defense := "D",
     resolutionHours := 0 },
   { country := "A", year := 2020, attackType := "Phishing",
     targetIndustry := "Tech", financialLoss := 0, affectedUsers := 0,
     attackSource := "X", vulnType := "Weak Credentials", defense := "D",
     resolutionHours := 0 },
   { country := "A", year := 2020, attackType := "Insider Threat",
     targetIndustry := "Tech", financialLoss := 5, affectedUsers := 5,
     attackSource := "X", vulnType := "Weak Credentials", defense := "D",
     resolutionHours := 5 },
   { country := "A", year := 2020, attackType := "Insider Threat",
     targetIndustry := "Tech", financialLoss := 100, affectedUsers := 100,
     attackSource := "X", vulnType := "Weak Credentials", defense := "D",
     resolutionHours := 100 }]

/-- The feature points the Scorer derives from `cexRecords`. -/
def cexPts : List Feat := (scoreDataset cexRecords).map featOf

/-- The singleton cluster assignment for the four points. -/
def cexAsg : List (Fin 4) := [0, 1, 2, 3]

/-- The first scored row that `scoreDataset` derives from `cexRecords`
(zero-day ransomware with all-minimum numeric cells). -/
def srW : ScoredRecord :=
  { base := { country := "A", year := 2020, attackType := "Ransomware",
              targetIndustry := "Tech", financialLoss := 0, affectedUsers := 0,
              attackSource := "X", vulnType := "Zero-day Exploit", defense := "D",
              resolutionHours := 0 }
    attack_severity_factor := 6/5
    financialLoss_norm := 0
    affectedUsers_norm := 0
    resolutionHours_norm := 0
    risk_score := 3/25 }

/-- A fully populated raw row used to probe the Cleaner. -/
def c8Base : RawRecord :=
  { country := some "A", year := some 2020, attackType := some "Phishing",
    targetIndustry := some "Tech", financialLoss := some 1,
    affectedUsers := some 10, attackSource := some "X",
    vulnType := some "V", defense := some "D", resolutionHours := some 1 }

/-- A table with one duplicated row and one missing financial-loss cell:
the duplicate shifts the median the Cleaner imputes with. -/
def c8Rows : List RawRecord :=
  [c8Base, c8Base, { c8Base with financialLoss := some 3 },
   { c8Base with financialLoss := none }]

/-- What "the quantile binning partitions the snapshot into the three
labels and is monotone" unfolds to for a concrete column and its two
computed thresholds. -/
def QuantileBinOK (users : List Rat) (q1 q2 : Rat) : Prop :=
  ∃ labels, add_severity_label users = some labels ∧
    labels.length = users.length ∧
    (∀ ol ∈ labels, ol = some "Low" ∨ ol = some "Medium" ∨ ol = some "High") ∧
    (∀ (i : Nat) (hu : i < users.length) (hl : i < labels.length),
      (users.get ⟨i, hu⟩ ≤ q1 → labels.get ⟨i, hl⟩ = some "Low") ∧
      (q1 < users.get ⟨i, hu⟩ → users.get ⟨i, hu⟩ ≤ q2 →
        labels.get ⟨i, hl⟩ = some "Medium") ∧
      (q2 < users.get ⟨i, hu⟩ → labels.get ⟨i, hl⟩ = some "High")) ∧
    (∀ (i j : Nat) (hi : i < users.length) (hj : j < users.length)
      (hi' : i < labels.length) (hj' : j < labels.length),
      users.get ⟨i, hi⟩ ≤ users.get ⟨j, hj⟩ →
      sevRank (labels.get ⟨i, hi'⟩) ≤ sevRank (labels.get ⟨j, hj'⟩))

theorem fillOpt_of_isSome (m : Option Rat) {x : Option Rat} (h : x.isSome) :
    fillOpt m x = x := by
  cases m with
  | none => rfl
  | some v =>
    cases x with
    | none => simp at h
    | some w => rfl

theorem dedupAux_eq_self {α : Type} [DecidableEq α] :
    ∀ (seen l : List α), l.Nodup → (∀ r ∈ l, r ∉ seen) → dedupAux seen l = l := by
  intro seen l
  induction l generalizing seen with
  | nil => intro _ _; rfl
  | cons r rest ih =>
    intro hnd hout
    have hnr : r ∉ seen := hout r (List.mem_cons_self r rest)
    rw [dedupAux, if_neg hnr]
    congr 1
    apply ih (r :: seen) (List.Nodup.of_cons hnd)
    intro x hx hcon
    rcases List.mem_cons.mp hcon with h1 | h1
    · exact (List.Nodup.not_mem hnd) (h1 ▸ hx)
    · exact hout x (List.mem_cons_of_mem r hx) h1

theorem dropDuplicates_eq_self {α : Type} [DecidableEq α] {l : List α} (h : l.Nodup) :
    dropDuplicates l = l :=
  dedupAux_eq_self [] l h (by intro r _ hc; simp at hc)

theorem fillFinancial_id (l : List RawRecord) (h : ∀ r ∈ l, r.financialLoss.isSome) :
    fillFinancial l = l := by
  unfold fillFinancial
  conv_rhs => rw [← List.map_id l]
  apply List.map_congr_left
  intro r hr
  rw [fillOpt_of_isSome _ (h r hr)]
  rfl

theorem fillAffected_id (l : List RawRecord) (h : ∀ r ∈ l, r.affectedUsers.isSome) :
    fillAffected l = l := by
  unfold fillAffected
  conv_rhs => rw [← List.map_id l]
  apply List.map_congr_left
  intro r hr
  rw [fillOpt_of_isSome _ (h r hr)]
  rfl

theorem fillResolution_id (l : List RawRecord) (h : ∀ r ∈ l, r.resolutionHours.isSome) :
    fillResolution l = l := by
  unfold fillResolution
  conv_rhs => rw [← List.map_id l]
  apply List.map_congr_left
  intro r hr
  rw [fillOpt_of_isSome _ (h r hr)]
  rfl

theorem fillCats_id (l : List RawRecord)
    (h : ∀ r ∈ l, r.country.isSome ∧ r.attackType.isSome ∧ r.targetIndustry.isSome ∧
      r.attackSource.isSome ∧ r.vulnType.isSome ∧ r.defense.isSome) :
    fillCats l = l := by
  unfold fillCats
  conv_rhs => rw [← List.map_id l]
  apply List.map_congr_left
  intro r hr
  obtain ⟨h1, h2, h3, h4, h5, h6⟩ := h r hr
  obtain ⟨c, y, a, ti, fl, au, s, v, d, rh⟩ := r
  rw [Option.isSome_iff_exists] at h1 h2 h3 h4 h5 h6
  obtain ⟨cv, rfl⟩ := h1
  obtain ⟨av, rfl⟩ := h2
  obtain ⟨tv, rfl⟩ := h3
  obtain ⟨sv, rfl⟩ := h4
  obtain ⟨vv, rfl⟩ := h5
  obtain ⟨dv, rfl⟩ := h6
  rfl

/-- C8 (amended): the Cleaner drops duplicates first and each numeric
column's missing cells are imputed with the median over the non-missing
values of the deduplicated snapshot; categoricals get "Unknown". -/
theorem c8_cleaner_dedup_then_median (l : List RawRecord) :
    cleanData l = cleanSpecDedup l := by
  simp only [cleanData, cleanSpecDedup, fillFinancial, fillAffected, fillResolution,
    List.map_map, Function.comp]
  rfl

/-- C8 counterexample: on a table whose duplicated row carries one of
the non-missing financial-loss values, the Cleaner imputes 2 (the median
after the duplicate is dropped), while a median taken over the full
dataset before any filtering would impute 1. -/
theorem c8_full_dataset_median_refuted :
    (cleanData c8Rows).map (fun r => r.financialLoss) = [some 1, some 3, some 2] ∧
    (cleanSpecPre c8Rows).map (fun r => r.financialLoss) = [some 1, some 3, some 1] ∧
    cleanData c8Rows ≠ cleanSpecPre c8Rows := by
  refine ⟨by with_unfolding_all decide, by with_unfolding_all decide,
    by with_unfolding_all decide⟩

/-- C9: the Cleaner is idempotent — on a table with no duplicate rows
and no missing cells in any imputed column, cleaning is a no-op. -/
theorem c9_cleaner_idempotent (l : List RawRecord) (hnd : l.Nodup)
    (himp : ∀ r ∈ l, Imputed r) : cleanData l = l := by
  have hfl : ∀ r ∈ l, r.financialLoss.isSome := fun r hr => (himp r hr).2.2.2.1
  have hau : ∀ r ∈ l, r.affectedUsers.isSome := fun r hr => (himp r hr).2.2.2.2.1
  have hrt : ∀ r ∈ l, r.resolutionHours.isSome := fun r hr => (himp r hr).2.2.2.2.2.2.2.2
  have hcat : ∀ r ∈ l, r.country.isSome ∧ r.attackType.isSome ∧ r.targetIndustry.isSome ∧
      r.attackSource.isSome ∧ r.vulnType.isSome ∧ r.defense.isSome := by
    intro r hr
    obtain ⟨a1, a2, a3, _, _, a6, a7, a8, _⟩ := himp r hr
    exact ⟨a1, a2, a3, a6, a7, a8⟩
  rw [cleanData, dropDuplicates_eq_self hnd, fillFinancial_id l hfl,
    fillAffected_id l hau, fillResolution_id l hrt, fillCats_id l hcat]

/-- Witness for C9 at a concrete two-row clean table. -/
theorem c9_cleaner_idempotent_witness :
    cleanData [c8Base, { c8Base with financialLoss := some 3 }] =
      [c8Base, { c8Base with financialLoss := some 3 }] :=
  c9_cleaner_idempotent _ (by with_unfolding_all decide) (by with_unfolding_all decide)

theorem matchAt_iff : ∀ (p s : List Char), matchAt p s = true ↔ ∃ rest, s = p ++ rest := by
  intro p
  induction p with
  | nil => intro s; simp [matchAt]
  | cons a as ih =>
    intro s
    cases s with
    | nil =>
      simp [matchAt]
    | cons c cs =>
      simp only [matchAt, Bool.and_eq_true, beq_iff_eq, ih, List.cons_append,
        List.cons_eq_cons]
      constructor
      · rintro ⟨rfl, rest, rfl⟩
        exact ⟨rest, rfl, rfl⟩
      · rintro ⟨rest, rfl, rfl⟩
        exact ⟨rfl, rest, rfl⟩

theorem containsCh_iff (p : List Char) :
    ∀ s, containsCh p s = true ↔ ∃ pre rest, s = pre ++ p ++ rest := by
  intro s
  induction s with
  | nil =>
    simp only [containsCh, matchAt_iff]
    constructor
    · rintro ⟨rest, hr⟩
      exact ⟨[], rest, by simp [hr]⟩
    · rintro ⟨pre, rest, hr⟩
      rcases List.append_eq_nil.mp hr.symm with ⟨h01, h2⟩
      rcases List.append_eq_nil.mp h01 with ⟨hpre, hp⟩
      exact ⟨[], by simp [hp]⟩
  | cons c cs ih =>
    simp only [containsCh, Bool.or_eq_true, matchAt_iff, ih]
    constructor
    · rintro (⟨rest, hr⟩ | ⟨pre, rest, hr⟩)
      · exact ⟨[], rest, by simp [hr]⟩
      · exact ⟨c :: pre, rest, by simp [hr]⟩
    · rintro ⟨pre, rest, hr⟩
      cases pre with
      | nil => exact Or.inl ⟨rest, by simpa using hr⟩
      | cons x xs =>
        rcases List.cons_eq_cons.mp (by simpa using hr) with ⟨rfl, h2⟩
        exact Or.inr ⟨xs, rest, by simpa using h2⟩

theorem hasSub_iff (s pat : String) : hasSub s pat = true ↔ HasSubstr s pat :=
  containsCh_iff pat.data s.data

theorem lookupStr_mem {α : Type} {k : String} {v : α} :
    ∀ {l : List (String × α)}, lookupStr k l = some v → (k, v) ∈ l := by
  intro l
  induction l with
  | nil => intro h; simp [lookupStr] at h
  | cons kv rest ih =>
    intro h
    obtain ⟨k', v'⟩ := kv
    rw [lookupStr] at h
    split at h
    · rename_i heq
      injection h with h
      subst heq h
      exact List.mem_cons_self _ _
    · exact List.mem_cons_of_mem _ (ih h)

theorem foldl_min_le_init (l : List Rat) : ∀ a, l.foldl min a ≤ a := by
  induction l with
  | nil => intro a; simp
  | cons x xs ih =>
    intro a
    rw [List.foldl_cons]
    exact le_trans (ih (min a x)) (min_le_left a x)

theorem foldl_min_le_mem {x : Rat} : ∀ {l : List Rat}, x ∈ l → ∀ a, l.foldl min a ≤ x := by
  intro l
  induction l with
  | nil => intro h; simp at h
  | cons y ys ih =>
    intro h a
    rw [List.foldl_cons]
    rcases List.mem_cons.mp h with rfl | hx
    · exact le_trans (foldl_min_le_init ys (min a x)) (min_le_right a x)
    · exact ih hx (min a y)

theorem init_le_foldl_max (l : List Rat) : ∀ a, a ≤ l.foldl max a := by
  induction l with
  | nil => intro a; simp
  | cons x xs ih =>
    intro a
    rw [List.foldl_cons]
    exact le_trans (le_max_left a x) (ih (max a x))

theorem mem_le_foldl_max {x : Rat} : ∀ {l : List Rat}, x ∈ l → ∀ a, x ≤ l.foldl max a := by
  intro l
  induction l with
  | nil => intro h; simp at h
  | cons y ys ih =>
    intro h a
    rw [List.foldl_cons]
    rcases List.mem_cons.mp h with rfl | hx
    · exact le_trans (le_max_right a x) (init_le_foldl_max ys (max a x))
    · exact ih hx (max a y)

theorem colMin_le {x : Rat} {l : List Rat} (h : x ∈ l) : colMin l ≤ x := by
  cases l with
  | nil => simp at h
  | cons y ys =>
    rw [colMin]
    rcases List.mem_cons.mp h with rfl | hx
    · exact foldl_min_le_init ys x
    · exact foldl_min_le_mem hx y

theorem le_colMax {x : Rat} {l : List Rat} (h : x ∈ l) : x ≤ colMax l := by
  cases l with
  | nil => simp at h
  | cons y ys =>
    rw [colMax]
    rcases List.mem_cons.mp h with rfl | hx
    · exact init_le_foldl_max ys x
    · exact mem_le_foldl_max hx y

theorem minmaxNorm_unit {mn mx x : Rat} (h1 : mn ≤ x) (h2 : x ≤ mx) (hlt : mn < mx) :
    0 ≤ minmaxNorm mn mx x ∧ minmaxNorm mn mx x ≤ 1 := by
  simp only [minmaxNorm]
  rw [if_neg (sub_ne_zero.mpr (ne_of_gt hlt))]
  constructor
  · apply div_nonneg <;> linarith
  · rw [div_le_one (by linarith)]
    linarith

theorem minmaxNorm_degenerate {mn mx x : Rat} (h1 : mn ≤ x) (h2 : x ≤ mx)
    (heq : mn = mx) : minmaxNorm mn mx x = 0 := by
  simp only [minmaxNorm]
  have hx : x = mn := le_antisymm (heq ▸ h2) h1
  subst hx
  simp

/-- C4: for every scored record, `risk_score` is the fixed weighted sum
of the three normalized features and the severity factor, and the
severity factor is the lookup-table base for the record's attack type
(0.3 when unrecognized) plus 0.2 exactly when the raw vulnerability text
contains the case-sensitive substring "Zero" or "Misconfig". -/
theorem c4_risk_score_formula (l : List CleanRecord) (sr : ScoredRecord)
    (hmem : sr ∈ scoreDataset l) :
    sr.risk_score = 0.4 * sr.financialLoss_norm + 0.3 * sr.affectedUsers_norm +
      0.2 * sr.resolutionHours_norm + 0.1 * sr.attack_severity_factor ∧
    ((HasSubstr sr.base.vulnType "Zero" ∨ HasSubstr sr.base.vulnType "Misconfig") →
      sr.attack_severity_factor =
        ((lookupStr sr.base.attackType severity_map).getD 0.3) + 0.2) ∧
    (¬(HasSubstr sr.base.vulnType "Zero" ∨ HasSubstr sr.base.vulnType "Misconfig") →
      sr.attack_severity_factor = (lookupStr sr.base.attackType severity_map).getD 0.3) := by
  simp only [scoreDataset] at hmem
  obtain ⟨r, hrl, rfl⟩ := List.mem_map.mp hmem
  refine ⟨rfl, ?_, ?_⟩
  · intro h
    show get_severity_factor r.attackType r.vulnType = _
    simp only [get_severity_factor]
    rw [if_pos]
    rcases h with h | h
    · simp [Bool.or_eq_true, (hasSub_iff _ _).mpr h]
    · simp [Bool.or_eq_true, (hasSub_iff _ _).mpr h]
  · intro h
    push_neg at h
    show get_severity_factor r.attackType r.vulnType = _
    simp only [get_severity_factor]
    rw [if_neg, add_zero]
    simp only [Bool.or_eq_true, hasSub_iff]
    push_neg
    exact h

/-- Witness for C4: the zero-day ransomware record of `cexRecords`,
whose vulnerability text contains "Zero". -/
theorem c4_risk_score_formula_witness :
    srW.risk_score = 0.4 * srW.financialLoss_norm + 0.3 * srW.affectedUsers_norm +
      0.2 * srW.resolutionHours_norm + 0.1 * srW.attack_severity_factor ∧
    srW.attack_severity_factor =
      ((lookupStr srW.base.attackType severity_map).getD 0.3) + 0.2 := by
  have h := c4_risk_score_formula cexRecords srW (by with_unfolding_all decide)
  exact ⟨h.1, h.2.1 (Or.inl ⟨[], "-day Exploit".data, by decide⟩)⟩

/-- C7: every normalized feature lies in [0,1] whenever its column is
non-degenerate (min < max over the dataset), and is 0 whenever the
column is constant (min = max). -/
theorem c7_normalization_bounds (l : List CleanRecord) (sr : ScoredRecord)
    (hmem : sr ∈ scoreDataset l) :
    (colMin (l.map (fun r => r.financialLoss)) < colMax (l.map (fun r => r.financialLoss)) →
      0 ≤ sr.financialLoss_norm ∧ sr.financialLoss_norm ≤ 1) ∧
    (colMin (l.map (fun r => r.financialLoss)) = colMax (l.map (fun r => r.financialLoss)) →
      sr.financialLoss_norm = 0) ∧
    (colMin (l.map (fun r => r.affectedUsers)) < colMax (l.map (fun r => r.affectedUsers)) →
      0 ≤ sr.affectedUsers_norm ∧ sr.affectedUsers_norm ≤ 1) ∧
    (colMin (l.map (fun r => r.affectedUsers)) = colMax (l.map (fun r => r.affectedUsers)) →
      sr.affectedUsers_norm = 0) ∧
    (colMin (l.map (fun r => r.resolutionHours)) < colMax (l.map (fun r => r.resolutionHours)) →
      0 ≤ sr.resolutionHours_norm ∧ sr.resolutionHours_norm ≤ 1) ∧
    (colMin (l.map (fun r => r.resolutionHours)) = colMax (l.map (fun r => r.resolutionHours)) →
      sr.resolutionHours_norm = 0) := by
  simp only [scoreDataset] at hmem
  obtain ⟨r, hrl, rfl⟩ := List.mem_map.mp hmem
  have hfl1 := colMin_le (List.mem_map_of_mem (fun r => r.financialLoss) hrl)
  have hfl2 := le_colMax (List.mem_map_of_mem (fun r => r.financialLoss) hrl)
  have hau1 := colMin_le (List.mem_map_of_mem (fun r => r.affectedUsers) hrl)
  have hau2 := le_colMax (List.mem_map_of_mem (fun r => r.affectedUsers) hrl)
  have hrt1 := colMin_le (List.mem_map_of_mem (fun r => r.resolutionHours) hrl)
  have hrt2 := le_colMax (List.mem_map_of_mem (fun r => r.resolutionHours) hrl)
  exact ⟨fun hlt => minmaxNorm_unit hfl1 hfl2 hlt,
    fun heq => minmaxNorm_degenerate hfl1 hfl2 heq,
    fun hlt => minmaxNorm_unit hau1 hau2 hlt,
    fun heq => minmaxNorm_degenerate hau1 hau2 heq,
    fun hlt => minmaxNorm_unit hrt1 hrt2 hlt,
    fun heq => minmaxNorm_degenerate hrt1 hrt2 heq⟩

/-- Witness for C7 at `cexRecords`, whose three numeric columns all run
from 0 to 100. -/
theorem c7_normalization_bounds_witness :
    (0 ≤ srW.financialLoss_norm ∧ srW.financialLoss_norm ≤ 1) ∧
    (0 ≤ srW.affectedUsers_norm ∧ srW.affectedUsers_norm ≤ 1) ∧
    (0 ≤ srW.resolutionHours_norm ∧ srW.resolutionHours_norm ≤ 1) := by
  have h := c7_normalization_bounds cexRecords srW (by with_unfolding_all decide)
  exact ⟨h.1 (by with_unfolding_all decide),
    h.2.2.1 (by with_unfolding_all decide),
    h.2.2.2.2.1 (by with_unfolding_all decide)⟩

/-- C10: the severity factor always lies in [0.3, 1.2], and whenever the
three normalized features lie in [0,1] the risk score lies in
[0.03, 1.02]. -/
theorem c10_risk_score_bounds (l : List CleanRecord) (sr : ScoredRecord)
    (hmem : sr ∈ scoreDataset l) :
    (0.3 ≤ sr.attack_severity_factor ∧ sr.attack_severity_factor ≤ 1.2) ∧
    (0 ≤ sr.financialLoss_norm → sr.financialLoss_norm ≤ 1 →
      0 ≤ sr.affectedUsers_norm → sr.affectedUsers_norm ≤ 1 →
      0 ≤ sr.resolutionHours_norm → sr.resolutionHours_norm ≤ 1 →
      0.03 ≤ sr.risk_score ∧ sr.risk_score ≤ 1.02) := by
  simp only [scoreDataset] at hmem
  obtain ⟨r, hrl, rfl⟩ := List.mem_map.mp hmem
  have hbase : 0.3 ≤ (lookupStr r.attackType severity_map).getD 0.3 ∧
      (lookupStr r.attackType severity_map).getD 0.3 ≤ 1 := by
    cases hlk : lookupStr r.attackType severity_map with
    | none =>
      simp only [Option.getD_none]
      constructor <;> norm_num
    | some b =>
      have hb : ∀ p ∈ severity_map, (0.3 : Rat) ≤ p.2 ∧ p.2 ≤ 1 := by
        with_unfolding_all decide
      simpa using hb _ (lookupStr_mem hlk)
  have hasf : 0.3 ≤ get_severity_factor r.attackType r.vulnType ∧
      get_severity_factor r.attackType r.vulnType ≤ 1.2 := by
    simp only [get_severity_factor]
    split
    · constructor <;> linarith [hbase.1, hbase.2]
    · constructor <;> linarith [hbase.1, hbase.2]
  refine ⟨hasf, ?_⟩
  intro h1 h2 h3 h4 h5 h6
  constructor <;> [skip; skip] <;> show _ ≤ _
  · linarith [hasf.1]
  · linarith [hasf.2]

/-- Witness for C10: the zero-day ransomware record, whose severity
factor is 1.2 and risk score 0.12. -/
theorem c10_risk_score_bounds_witness :
    (0.3 ≤ srW.attack_severity_factor ∧ srW.attack_severity_factor ≤ 1.2) ∧
    (0.03 ≤ srW.risk_score ∧ srW.risk_score ≤ 1.02) := by
  have h := c10_risk_score_bounds cexRecords srW (by with_unfolding_all decide)
  exact ⟨h.1, h.2 (by with_unfolding_all decide) (by with_unfolding_all decide)
    (by with_unfolding_all decide) (by with_unfolding_all decide)
    (by with_unfolding_all decide) (by with_unfolding_all decide)⟩

theorem floorNat_le (pos : Rat) (h : 0 ≤ pos) : ((Rat.floor pos).toNat : Rat) ≤ pos := by
  have h1 : (0 : Int) ≤ Rat.floor pos := Int.floor_nonneg.mpr h
  have h2 : (((Rat.floor pos).toNat : Int) : Rat) = ((Rat.floor pos : Int) : Rat) := by
    rw [Int.toNat_of_nonneg h1]
  have h3 : (((Rat.floor pos).toNat : Nat) : Rat) = (((Rat.floor pos).toNat : Int) : Rat) := by
    norm_cast
  rw [h3, h2]
  exact Int.floor_le pos

theorem lt_floorNat_add_one (pos : Rat) (h : 0 ≤ pos) :
    pos < ((Rat.floor pos).toNat : Rat) + 1 := by
  have h1 : (0 : Int) ≤ Rat.floor pos := Int.floor_nonneg.mpr h
  have h2 : (((Rat.floor pos).toNat : Int) : Rat) = ((Rat.floor pos : Int) : Rat) := by
    rw [Int.toNat_of_nonneg h1]
  have h3 : (((Rat.floor pos).toNat : Nat) : Rat) = (((Rat.floor pos).toNat : Int) : Rat) := by
    norm_cast
  rw [h3, h2]
  exact Int.lt_floor_add_one pos

theorem mem_insertSorted {x y : Rat} :
    ∀ {l : List Rat}, y ∈ insertSorted x l ↔ y = x ∨ y ∈ l := by
  intro l
  induction l with
  | nil => simp [insertSorted]
  | cons z zs ih =>
    simp only [insertSorted]
    split
    · simp [List.mem_cons]
    · simp only [List.mem_cons, ih]
      tauto

theorem mem_sortRats {y : Rat} : ∀ {l : List Rat}, y ∈ sortRats l ↔ y ∈ l := by
  intro l
  induction l with
  | nil => simp [sortRats]
  | cons x xs ih => simp [sortRats, mem_insertSorted, ih, List.mem_cons]

theorem quantile_nonneg {l : List Rat} {q v : Rat} (hq : 0 ≤ q)
    (hl : ∀ x ∈ l, 0 ≤ x) (h : quantile l q = some v) : 0 ≤ v := by
  simp only [quantile] at h
  split at h
  · exact absurd h (by simp)
  · rename_i hn0
    have hn1 : 1 ≤ (sortRats l).length := Nat.one_le_iff_ne_zero.mpr hn0
    have hpos : 0 ≤ q * (((sortRats l).length : Rat) - 1) := by
      apply mul_nonneg hq
      have : (1 : Rat) ≤ ((sortRats l).length : Rat) := by exact_mod_cast hn1
      linarith
    split at h
    · rename_i lo hi hlo hhi
      injection h with h
      have hlo0 : 0 ≤ lo := hl lo (mem_sortRats.mp (List.get?_mem hlo))
      have hhi0 : 0 ≤ hi := hl hi (mem_sortRats.mp (List.get?_mem hhi))
      have hf1 := floorNat_le _ hpos
      have hf2 := lt_floorNat_add_one _ hpos
      have e1 : (0 : Rat) ≤ 1 - (q * (((sortRats l).length : Rat) - 1) -
          ((Rat.floor (q * (((sortRats l).length : Rat) - 1))).toNat : Rat)) := by
        linarith
      have e2 : (0 : Rat) ≤ q * (((sortRats l).length : Rat) - 1) -
          ((Rat.floor (q * (((sortRats l).length : Rat) - 1))).toNat : Rat) := by
        linarith
      nlinarith [mul_nonneg e1 hlo0, mul_nonneg e2 hhi0]
    · rename_i lo hlo hhi
      injection h with h
      exact h ▸ hl lo (mem_sortRats.mp (List.get?_mem hlo))
    · exact absurd h (by simp)

/-- C5 counterexample: a constant, non-negative affected-users column
makes the two quantiles coincide, `pd.cut` rejects the duplicate bin
edges `[-1, 5, 5, inf]`, and no record receives any label. -/
theorem c5_constant_column_refuted :
    (∀ x ∈ [(5 : Rat), 5, 5], 0 ≤ x) ∧ add_severity_label [5, 5, 5] = none := by
  with_unfolding_all decide

/-- C5 (amended): provided the two computed percentile thresholds are
distinct, the quantile binning labels every non-negative record with
exactly one of Low/Medium/High according to the claimed thresholds, and
the labelling is monotone in `affected_users`. -/
theorem c5_quantile_binning (users : List Rat) (q1 q2 : Rat)
    (hq1 : quantile users 0.33 = some q1) (hq2 : quantile users 0.66 = some q2)
    (hnn : ∀ x ∈ users, 0 ≤ x) (hlt : q1 < q2) : QuantileBinOK users q1 q2 := by
  have h0 : 0 ≤ q1 := quantile_nonneg (by norm_num) hnn hq1
  have hadd : add_severity_label users = some (users.map (cutRow q1 q2)) := by
    simp only [add_severity_label, hq1, hq2]
    rw [if_pos ⟨by linarith, hlt⟩]
  have hcut : ∀ x ∈ users, cutRow q1 q2 x =
      if x ≤ q1 then some "Low" else if x ≤ q2 then some "Medium" else some "High" := by
    intro x hx
    have := hnn x hx
    simp only [cutRow]
    rw [if_neg (by linarith)]
  refine ⟨users.map (cutRow q1 q2), hadd, by simp, ?_, ?_, ?_⟩
  · intro ol hol
    obtain ⟨x, hx, rfl⟩ := List.mem_map.mp hol
    rw [hcut x hx]
    split_ifs
    · exact Or.inl rfl
    · exact Or.inr (Or.inl rfl)
    · exact Or.inr (Or.inr rfl)
  · intro i hu hl'
    have hget : (users.map (cutRow q1 q2)).get ⟨i, hl'⟩ =
        cutRow q1 q2 (users.get ⟨i, hu⟩) := by
      simp [List.get_eq_getElem, List.getElem_map]
    rw [hget, hcut _ (List.get_mem users _ _)]
    refine ⟨fun h1 => by rw [if_pos h1], fun h1 h2 => ?_, fun h1 => ?_⟩
    · rw [if_neg (by linarith), if_pos h2]
    · rw [if_neg (by linarith), if_neg (by linarith)]
  · intro i j hi hj hi' hj' hij
    have hgi : (users.map (cutRow q1 q2)).get ⟨i, hi'⟩ =
        cutRow q1 q2 (users.get ⟨i, hi⟩) := by
      simp [List.get_eq_getElem, List.getElem_map]
    have hgj : (users.map (cutRow q1 q2)).get ⟨j, hj'⟩ =
        cutRow q1 q2 (users.get ⟨j, hj⟩) := by
      simp [List.get_eq_getElem, List.getElem_map]
    rw [hgi, hgj, hcut _ (List.get_mem users _ _), hcut _ (List.get_mem users _ _)]
    split_ifs with a1 a2 a2 a3 a3 a4 a4 <;> simp [sevRank] <;> linarith

/-- Witness for C5 on the column [0, 1, 2], whose thresholds are
q33 = 0.66 and q66 = 1.32. -/
theorem c5_quantile_binning_witness : QuantileBinOK [0, 1, 2] (33/50) (33/25) :=
  c5_quantile_binning [0, 1, 2] (33/50) (33/25)
    (by with_unfolding_all decide) (by with_unfolding_all decide)
    (by with_unfolding_all decide) (by with_unfolding_all decide)

theorem mapO_length {α β : Type} (g : α → Option β) :
    ∀ {l : List α} {ys : List β}, mapO g l = some ys → ys.length = l.length := by
  intro l
  induction l with
  | nil =>
    intro ys h
    simp only [mapO, Option.some.injEq] at h
    rw [← h]
    rfl
  | cons x xs ih =>
    intro ys h
    simp only [mapO] at h
    cases hgx : g x with
    | none => rw [hgx] at h; simp at h
    | some y =>
      rw [hgx] at h
      cases hrec : mapO g xs with
      | none => rw [hrec] at h; simp at h
      | some ys' =>
        rw [hrec] at h
        simp only [Option.some.injEq] at h
        rw [← h]
        simp [ih hrec]

theorem mapO_get {α β : Type} (g : α → Option β) :
    ∀ {l : List α} {ys : List β}, mapO g l = some ys →
      ∀ (i : Nat) (h1 : i < l.length) (h2 : i < ys.length),
        g (l.get ⟨i, h1⟩) = some (ys.get ⟨i, h2⟩) := by
  intro l
  induction l with
  | nil => intro ys h i h1 h2; simp at h1
  | cons x xs ih =>
    intro ys h i h1 h2
    simp only [mapO] at h
    cases hgx : g x with
    | none => rw [hgx] at h; simp at h
    | some y =>
      rw [hgx] at h
      cases hrec : mapO g xs with
      | none => rw [hrec] at h; simp at h
      | some ys' =>
        rw [hrec] at h
        simp only [Option.some.injEq] at h
        subst h
        cases i with
        | zero => simpa using hgx
        | succ n =>
          exact ih hrec n (Nat.lt_of_succ_lt_succ h1) (Nat.lt_of_succ_lt_succ h2)

theorem mapO_total {α β : Type} (g : α → Option β) :
    ∀ {l : List α}, (∀ x ∈ l, (g x).isSome) → ∃ ys, mapO g l = some ys := by
  intro l
  induction l with
  | nil => intro _; exact ⟨[], rfl⟩
  | cons x xs ih =>
    intro h
    obtain ⟨y, hy⟩ := Option.isSome_iff_exists.mp (h x (List.mem_cons_self x xs))
    obtain ⟨ys, hys⟩ := ih (fun z hz => h z (List.mem_cons_of_mem x hz))
    exact ⟨y :: ys, by simp [mapO, hy, hys]⟩

theorem idxOf_of_mem {s : String} : ∀ {cl : List String}, s ∈ cl → ∃ n, idxOf s cl = some n := by
  intro cl
  induction cl with
  | nil => intro h; simp at h
  | cons c cs ih =>
    intro h
    by_cases hc : s = c
    · exact ⟨0, by simp [idxOf, hc]⟩
    · rcases List.mem_cons.mp h with h1 | h1
      · exact absurd h1 hc
      · obtain ⟨n, hn⟩ := ih h1
        exact ⟨n + 1, by simp [idxOf, hc, hn]⟩

theorem encodeField_total {e : List (String × List String)} {k : String} (v : Value)
    (hvocab : lookupStr k e ≠ some []) : ∃ w, encodeField e k v = some w := by
  cases hlk : lookupStr k e with
  | none => exact ⟨v, by simp [encodeField, hlk]⟩
  | some classes =>
    have hne : classes ≠ [] := by
      intro hc
      exact hvocab (hc ▸ hlk)
    obtain ⟨c, cs, rfl⟩ := List.exists_cons_of_ne_nil hne
    cases hvm : valueMem v (c :: cs) with
    | true =>
      obtain ⟨s, rfl⟩ : ∃ s, v = Value.str s := by
        cases v with
        | str s => exact ⟨s, rfl⟩
        | num q => simp [valueMem] at hvm
      have hmem : s ∈ c :: cs := by simpa [valueMem] using hvm
      obtain ⟨n, hn⟩ := idxOf_of_mem hmem
      exact ⟨Value.num (n : Rat), by simp [encodeField, hlk, hvm, hn]⟩
    | false =>
      refine ⟨Value.num ((0 : Nat) : Rat), ?_⟩
      simp [encodeField, hlk, hvm, idxOf]

theorem encode_input_lookup {e : List (String × List String)} :
    ∀ {row enc : List (String × Value)}, encode_input e row = some enc →
      ∀ g v, lookupStr g row = some v →
        ∃ w, encodeField e g v = some w ∧ lookupStr g enc = some w := by
  intro row
  induction row with
  | nil => intro enc _ g v hv; simp [lookupStr] at hv
  | cons kv rest ih =>
    intro enc henc g v hv
    simp only [encode_input, mapO] at henc
    cases hf : (encodeField e kv.1 kv.2).map (fun w => (kv.1, w)) with
    | none => rw [hf] at henc; simp at henc
    | some p =>
      rw [hf] at henc
      cases hrec : mapO (fun kv => (encodeField e kv.1 kv.2).map (fun w => (kv.1, w))) rest with
      | none => rw [hrec] at henc; simp at henc
      | some enc' =>
        rw [hrec] at henc
        simp only [Option.some.injEq] at henc
        subst henc
        obtain ⟨w0, hw0, hp⟩ := Option.map_eq_some'.mp hf
        rw [lookupStr] at hv
        by_cases hg : g = kv.1
        · rw [if_pos hg] at hv
          injection hv with hv
          subst hv
          refine ⟨w0, by rw [hg]; exact hw0, ?_⟩
          rw [← hp, lookupStr, if_pos hg]
        · rw [if_neg hg] at hv
          obtain ⟨w, hw1, hw2⟩ := ih hrec g v hv
          refine ⟨w, hw1, ?_⟩
          rw [← hp, lookupStr, if_neg hg]
          exact hw2

theorem predict_severity_total (m : Model) (e : List (String × List String))
    (f : List String) (input : List (String × Value)) (sev : List String)
    (hvocabs : ∀ kv ∈ input, lookupStr kv.1 e ≠ some [])
    (hfeats : ∀ g ∈ f, (lookupStr g input).isSome)
    (hsev : lookupStr "Severity" e = some sev)
    (hlen : m.numClasses = sev.length) :
    ∃ enc vec lab, encode_input e input = some enc ∧ selectFeatures f enc = some vec ∧
      predict_severity m e f input = some lab ∧ lab ∈ sev := by
  obtain ⟨enc, henc⟩ := mapO_total (fun kv => (encodeField e kv.1 kv.2).map (fun w => (kv.1, w)))
    (fun (kv : String × Value) hkv => by
      obtain ⟨w, hw⟩ := encodeField_total kv.2 (hvocabs kv hkv)
      simp [hw])
  have henc' : encode_input e input = some enc := henc
  obtain ⟨vec, hvec⟩ := mapO_total (fun g => lookupStr g enc) (fun g hg => by
    obtain ⟨v, hv⟩ := Option.isSome_iff_exists.mp (hfeats g hg)
    obtain ⟨w, _, hw2⟩ := encode_input_lookup henc' g v hv
    simp [hw2])
  have hvec' : selectFeatures f enc = some vec := hvec
  have hpred : m.predictFun vec < sev.length := hlen ▸ m.pred_lt vec
  refine ⟨enc, vec, sev.get ⟨m.predictFun vec, hpred⟩, henc', hvec', ?_, List.get_mem sev _ _⟩
  simp only [predict_severity, henc', hvec', hsev]
  exact List.get?_eq_get hpred

/-- C1: on any record carrying every persisted feature (with nonempty
persisted vocabularies, as training produces), `predict_severity`
returns a label drawn from the persisted Severity vocabulary; when that
vocabulary is over {Low, Medium, High}, the result is one of exactly
those strings. -/
theorem c1_predict_returns_vocab_label (m : Model) (e : List (String × List String))
    (f : List String) (input : List (String × Value)) (sev : List String)
    (hvocabs : ∀ kv ∈ input, lookupStr kv.1 e ≠ some [])
    (hfeats : ∀ g ∈ f, (lookupStr g input).isSome)
    (hsev : lookupStr "Severity" e = some sev)
    (hlen : m.numClasses = sev.length)
    (hvoc : ∀ x ∈ sev, x = "Low" ∨ x = "Medium" ∨ x = "High") :
    ∃ lab, predict_severity m e f input = some lab ∧ lab ∈ sev ∧
      (lab = "Low" ∨ lab = "Medium" ∨ lab = "High") := by
  obtain ⟨enc, vec, lab, _, _, hp, hm⟩ :=
    predict_severity_total m e f input sev hvocabs hfeats hsev hlen
  exact ⟨lab, hp, hm, hvoc lab hm⟩

/-- Witness for C1: the India/Phishing scenario record of the spec
against the concrete persisted artifacts. -/
theorem c1_predict_returns_vocab_label_witness :
    ∃ lab, predict_severity modelEx encodersEx featuresEx indiaInput = some lab ∧
      lab ∈ ["High", "Low", "Medium"] ∧
      (lab = "Low" ∨ lab = "Medium" ∨ lab = "High") :=
  c1_predict_returns_vocab_label modelEx encodersEx featuresEx indiaInput
    ["High", "Low", "Medium"] (by decide) (by decide) (by decide) (by decide) (by decide)

/-- C2: a categorical field whose value was never seen at training time
does not make `encode_input` fail — it encodes to index 0 (the
vocabulary's first entry), and `predict_severity` still returns a label
from the persisted Severity vocabulary. -/
theorem c2_unseen_category_fallback (m : Model) (e : List (String × List String))
    (f : List String) (input : List (String × Value)) (k s : String)
    (classes : List String) (sev : List String)
    (hk : lookupStr k e = some classes) (hne : classes ≠ [])
    (hkv : lookupStr k input = some (Value.str s)) (hs : s ∉ classes)
    (hvocabs : ∀ kv ∈ input, lookupStr kv.1 e ≠ some [])
    (hfeats : ∀ g ∈ f, (lookupStr g input).isSome)
    (hsev : lookupStr "Severity" e = some sev)
    (hlen : m.numClasses = sev.length) :
    ∃ enc lab, encode_input e input = some enc ∧
      lookupStr k enc = some (Value.num 0) ∧
      predict_severity m e f input = some lab ∧ lab ∈ sev := by
  obtain ⟨enc, vec, lab, henc, hvec, hp, hm⟩ :=
    predict_severity_total m e f input sev hvocabs hfeats hsev hlen
  obtain ⟨w, hw1, hw2⟩ := encode_input_lookup henc k (Value.str s) hkv
  have hw0 : encodeField e k (Value.str s) = some (Value.num 0) := by
    obtain ⟨c, cs, rfl⟩ := List.exists_cons_of_ne_nil hne
    have hvm : valueMem (Value.str s) (c :: cs) = false := by
      simp [valueMem, hs]
    simp [encodeField, hk, hvm, idxOf]
  rw [hw0] at hw1
  injection hw1 with hw1
  exact ⟨enc, lab, henc, hw1 ▸ hw2, hp, hm⟩

/-- Witness for C2: the scenario record with the fabricated country
"Atlantis", absent from the persisted Country vocabulary. -/
theorem c2_unseen_category_fallback_witness :
    ∃ enc lab, encode_input encodersEx atlantisInput = some enc ∧
      lookupStr "Country" enc = some (Value.num 0) ∧
      predict_severity modelEx encodersEx featuresEx atlantisInput = some lab ∧
      lab ∈ ["High", "Low", "Medium"] :=
  c2_unseen_category_fallback modelEx encodersEx featuresEx atlantisInput
    "Country" "Atlantis" ["India", "USA"] ["High", "Low", "Medium"]
    (by decide) (by decide) (by decide) (by decide) (by decide) (by decide)
    (by decide) (by decide)

/-- C6: whenever `predict_batch` succeeds, it returns one label per row
and each row's label equals what `predict_severity` returns on that row
alone — no prediction depends on any other row. -/
theorem c6_batch_matches_single (m : Model) (e : List (String × List String))
    (f : List String) (rows : List (List (String × Value))) (out : List String)
    (h : predict_batch m e f rows = some out) :
    out.length = rows.length ∧
    ∀ (i : Nat) (hr : i < rows.length) (ho : i < out.length),
      predict_severity m e f (rows.get ⟨i, hr⟩) = some (out.get ⟨i, ho⟩) := by
  simp only [predict_batch] at h
  split at h
  · simp at h
  rename_i encRows hE
  split at h
  · simp at h
  rename_i vecs hS
  split at h
  · simp at h
  rename_i sev hV
  have lE := mapO_length _ hE
  have lS := mapO_length _ hS
  have lP := mapO_length _ h
  have hlen : out.length = rows.length := by
    rw [lP, List.length_map, lS, lE]
  refine ⟨hlen, ?_⟩
  intro i hr ho
  have hiE : i < encRows.length := lE ▸ hr
  have hiV : i < vecs.length := lS ▸ hiE
  have hiP : i < (vecs.map m.predictFun).length := by simpa using hiV
  have e1 := mapO_get _ hE i hr hiE
  have e2 := mapO_get _ hS i hiE hiV
  have e3 := mapO_get _ h i hiP ho
  have e4 : (vecs.map m.predictFun).get ⟨i, hiP⟩ = m.predictFun (vecs.get ⟨i, hiV⟩) := by
    simp [List.get_eq_getElem, List.getElem_map]
  rw [e4] at e3
  simp only [predict_severity, e1, e2, hV, e3]

/-- Witness for C6: a two-row batch (the India record and the Atlantis
record) agrees row by row with the single-record predictor. -/
theorem c6_batch_matches_single_witness :
    predict_severity modelEx encodersEx featuresEx indiaInput = some "Low" ∧
    predict_severity modelEx encodersEx featuresEx atlantisInput = some "Low" := by
  have h := c6_batch_matches_single modelEx encodersEx featuresEx
    [indiaInput, atlantisInput] ["Low", "Low"] (by with_unfolding_all decide)
  exact ⟨h.2 0 (by decide) (by decide), h.2 1 (by decide) (by decide)⟩

theorem clt_irrefl (keys : Fin 4 → Rat) (j : Fin 4) : ¬ clt keys j j := by
  simp [clt]

theorem clt_trans (keys : Fin 4 → Rat) {i j k : Fin 4} :
    clt keys i j → clt keys j k → clt keys i k := by
  rintro (h1 | ⟨e1, l1⟩) (h2 | ⟨e2, l2⟩)
  · exact Or.inl (lt_trans h1 h2)
  · exact Or.inl (lt_of_lt_of_le h1 (le_of_eq e2))
  · exact Or.inl (lt_of_le_of_lt (le_of_eq e1) h2)
  · exact Or.inr ⟨e1.trans e2, lt_trans l1 l2⟩

theorem clt_total (keys : Fin 4 → Rat) {i j : Fin 4} (h : i ≠ j) :
    clt keys i j ∨ clt keys j i := by
  rcases lt_trichotomy (keys i) (keys j) with h1 | h1 | h1
  · exact Or.inl (Or.inl h1)
  · rcases lt_or_gt_of_ne h with h2 | h2
    · exact Or.inl (Or.inr ⟨h1, h2⟩)
    · exact Or.inr (Or.inr ⟨h1.symm, h2⟩)
  · exact Or.inr (Or.inl h1)

theorem tierOf_lt_four (keys : Fin 4 → Rat) (j : Fin 4) : tierOf keys j < 4 := by
  have hsub : Finset.univ.filter (fun i => clt keys i j) ⊆ Finset.univ.erase j := by
    intro x hx
    rcases Finset.mem_filter.mp hx with ⟨_, hc⟩
    refine Finset.mem_erase.mpr ⟨?_, Finset.mem_univ x⟩
    rintro rfl
    exact clt_irrefl keys _ hc
  calc tierOf keys j ≤ (Finset.univ.erase j).card := Finset.card_le_card hsub
    _ = 3 := by
        rw [Finset.card_erase_of_mem (Finset.mem_univ j), Finset.card_univ]
        simp
    _ < 4 := by norm_num

theorem tierOf_lt_of_clt (keys : Fin 4 → Rat) {i j : Fin 4} (h : clt keys i j) :
    tierOf keys i < tierOf keys j := by
  apply Finset.card_lt_card
  rw [Finset.ssubset_def]
  constructor
  · intro x hx
    rcases Finset.mem_filter.mp hx with ⟨_, hc⟩
    exact Finset.mem_filter.mpr ⟨Finset.mem_univ x, clt_trans keys hc h⟩
  · intro hcon
    have hi : i ∈ Finset.univ.filter (fun x => clt keys x j) :=
      Finset.mem_filter.mpr ⟨Finset.mem_univ i, h⟩
    rcases Finset.mem_filter.mp (hcon hi) with ⟨_, hc⟩
    exact clt_irrefl keys i hc

theorem tierOf_inj (keys : Fin 4 → Rat) : Function.Injective (tierOf keys) := by
  intro i j h
  by_contra hne
  rcases clt_total keys hne with hc | hc
  · exact absurd h (Nat.ne_of_lt (tierOf_lt_of_clt keys hc))
  · exact absurd h.symm (Nat.ne_of_lt (tierOf_lt_of_clt keys hc))

theorem tierOf_surj (keys : Fin 4 → Rat) {t : Nat} (ht : t < 4) :
    ∃ j, tierOf keys j = t := by
  have hcard : (Finset.univ.image (tierOf keys)).card = 4 := by
    rw [Finset.card_image_of_injective _ (tierOf_inj keys), Finset.card_univ]
    simp
  have hsub : Finset.univ.image (tierOf keys) ⊆ Finset.range 4 := by
    intro x hx
    rcases Finset.mem_image.mp hx with ⟨j, _, rfl⟩
    exact Finset.mem_range.mpr (tierOf_lt_four keys j)
  have heq : Finset.univ.image (tierOf keys) = Finset.range 4 :=
    Finset.eq_of_subset_of_card_le hsub (by rw [Finset.card_range, hcard])
  have hmem : t ∈ Finset.univ.image (tierOf keys) := heq ▸ Finset.mem_range.mpr ht
  rcases Finset.mem_image.mp hmem with ⟨j, _, hj⟩
  exact ⟨j, hj⟩

theorem key_le_of_tierOf_le (keys : Fin 4 → Rat) {i j : Fin 4}
    (h : tierOf keys i ≤ tierOf keys j) : keys i ≤ keys j := by
  rcases eq_or_ne i j with rfl | hne
  · exact le_refl _
  · rcases clt_total keys hne with hc | hc
    · rcases hc with h1 | ⟨h1, _⟩
      · exact le_of_lt h1
      · exact le_of_eq h1
    · exact absurd h (Nat.not_le.mpr (tierOf_lt_of_clt keys hc))

/-- C3 (amended): whenever every one of the 4 clusters is nonempty, the
relabelling step assigns exactly the four tier labels
Low/Medium/High/Critical, and the tier order is monotone in the sort key
the code actually uses — the cluster center averaged across the 4
feature dimensions — rather than in the per-tier mean `risk_score`. -/
theorem c3_cluster_tiers (pts : List Feat) (asg : List (Fin 4))
    (hcover : ∀ j : Fin 4, j ∈ asg) :
    (severityTiers pts asg).toFinset = Finset.range 4 ∧
    ((severityTiers pts asg).map tierName).toFinset =
      {"Low", "Medium", "High", "Critical"} ∧
    ∀ j j' : Fin 4, tierOf (clusterKey pts asg) j ≤ tierOf (clusterKey pts asg) j' →
      clusterKey pts asg j ≤ clusterKey pts asg j' := by
  have h1 : (severityTiers pts asg).toFinset = Finset.range 4 := by
    apply Finset.ext
    intro t
    simp only [List.mem_toFinset, severityTiers, List.mem_map, Finset.mem_range]
    constructor
    · rintro ⟨j, _, rfl⟩
      exact tierOf_lt_four _ j
    · intro ht
      obtain ⟨j, hj⟩ := tierOf_surj (clusterKey pts asg) ht
      exact ⟨j, hcover j, hj⟩
  refine ⟨h1, ?_, fun j j' => key_le_of_tierOf_le _⟩
  have h2 : (List.map tierName (severityTiers pts asg)).toFinset =
      (severityTiers pts asg).toFinset.image tierName := by
    apply Finset.ext
    intro x
    simp [List.mem_toFinset, List.mem_map, Finset.mem_image]
  rw [h2, h1]
  decide

/-- C3 counterexample: a four-point dataset produced by the Scorer on
which the singleton clustering is a converged KMeans state with four
pairwise-distinct points, yet the per-tier mean risk score of the
"High" tier is strictly below that of the "Medium" tier. -/
theorem c3_mean_risk_not_monotone :
    cexPts.Nodup ∧ IsKMeansState cexPts cexAsg ∧
    severityTiers cexPts cexAsg = [1, 0, 2, 3] ∧
    meanRiskOfTier cexPts cexAsg 2 < meanRiskOfTier cexPts cexAsg 1 := by
  with_unfolding_all decide

/-- Witness for C3 on the concrete four-point dataset: all four cluster
labels appear. -/
theorem c3_cluster_tiers_witness :
    (severityTiers cexPts cexAsg).toFinset = Finset.range 4 ∧
    ((severityTiers cexPts cexAsg).map tierName).toFinset =
      {"Low", "Medium", "High", "Critical"} := by
  have h := c3_cluster_tiers cexPts cexAsg (by with_unfolding_all decide)
  exact ⟨h.1, h.2.1⟩
